import Mathlib

/-!
Verification of the livsmart_kardex inventory consolidation program
(src/main.py) against its natural-language specification.

The program's data model is embedded shallowly:
  - cell values (as held by pandas DataFrames / openpyxl worksheets) become
    the inductive type PyVal;
  - a pandas DataFrame becomes a structure of named columns and ordered rows;
  - the in-place column assignment df[c] = scalar and the outer
    concatenation pd.concat(..., ignore_index=True) become the executable
    functions DataFrame.assignCol and pdConcat;
  - filesystem and platform effects are passed explicitly (a path-indexed
    file state, an OS kind, a hostname argument).
-/

/-- Cell values as they appear in pandas DataFrames and openpyxl worksheets:
the absent value (Python None), the float NaN that pandas inserts for entries
missing after an outer concatenation, strings, and integers. -/
inductive PyVal where
  | none
  | nan
  | str (s : String)
  | int (n : Int)
deriving DecidableEq, Repr

/-- Python truthiness of a cell value, as tested by the source's
guard if cell.value: — None is falsy, NaN is truthy, a string is truthy
iff nonempty, an integer is truthy iff nonzero. -/
def PyVal.truthy : PyVal → Bool
  | .none => false
  | .nan => true
  | .str s => s != ""
  | .int n => n != 0

/-- Python str() of a cell value. -/
def PyVal.pyStr : PyVal → String
  | .none => "None"
  | .nan => "nan"
  | .str s => s
  | .int n => toString n

/-- Python isinstance(v, str). -/
def PyVal.isStr : PyVal → Bool
  | .str _ => true
  | _ => false

/-- A pandas DataFrame: a list of column labels and a list of rows, each row
holding the cell values in column order. -/
structure DataFrame where
  cols : List String
  rows : List (List PyVal)
deriving DecidableEq, Repr

/-- Index of the first column with the given label, if any. -/
def idxOfCol (c : String) : List String → Option Nat
  | [] => Option.none
  | x :: xs => if x = c then some 0 else (idxOfCol c xs).map (fun i => i + 1)

/-- Value of a row at a named column; pandas yields NaN for a missing
column or a short row. -/
def cellAt (cols : List String) (row : List PyVal) (c : String) : PyVal :=
  match idxOfCol c cols with
  | some i => row.getD i PyVal.nan
  | Option.none => PyVal.nan

/-- A DataFrame is rectangular: every row has one value per column. -/
def DataFrame.Rect (df : DataFrame) : Prop :=
  ∀ r ∈ df.rows, r.length = df.cols.length

instance (df : DataFrame) : Decidable df.Rect :=
  inferInstanceAs (Decidable (∀ r ∈ df.rows, r.length = df.cols.length))

/-- Model of the pandas scalar column assignment df[c] = v: if column c
exists its values are overwritten in place, otherwise a new column c is
appended on the right, holding v in every row. -/
def DataFrame.assignCol (df : DataFrame) (c : String) (v : PyVal) : DataFrame :=
  match idxOfCol c df.cols with
  | some i => DataFrame.mk df.cols (df.rows.map (fun r => r.set i v))
  | Option.none => DataFrame.mk (df.cols ++ [c]) (df.rows.map (fun r => r ++ [v]))

/-- Python str.upper() restricted to ASCII, mapping each character to its
upper case form. -/
def pyUpper (s : String) : String :=
  (s.toList.map Char.toUpper).asString

/-- Warehouse label chosen by the if/elif chain of merge_inventories
(src/main.py lines 169-176), comparing warehouse.upper() against the three
known keys and falling back to the raw key. -/
def bodegaLabel (warehouse : String) : String :=
  if pyUpper warehouse = "OPL" then "Bodega OPL"
  else if pyUpper warehouse = "E" then "Bodega E"
  else if pyUpper warehouse = "MOBU" then "Bodegas MOBU"
  else warehouse

/-- Union of the column label lists of several DataFrames, in order of first
appearance — the column axis produced by pd.concat with the default outer
join and sort=False. -/
def unionCols (dfs : List DataFrame) : List String :=
  dfs.foldl (fun acc df => acc ++ df.cols.filter (fun c => decide (c ∉ acc))) []

/-- Reindex one row of a source DataFrame along the unioned column axis;
columns the source lacks are filled with NaN. -/
def alignRow (allCols cols : List String) (row : List PyVal) : List PyVal :=
  allCols.map (fun c => cellAt cols row c)

/-- Model of pd.concat(dfs, ignore_index=True): rows of each frame in input
order, reindexed along the unioned column axis; the fresh contiguous row
index is the position in the resulting row list. -/
def pdConcat (dfs : List DataFrame) : DataFrame :=
  DataFrame.mk (unionCols dfs)
    ((dfs.map (fun df => df.rows.map (alignRow (unionCols dfs) df.cols))).flatten)

/-- The tagging loop of merge_inventories: each entry of the dict receives
the in-place assignment df["Bodega"] = label in iteration order. -/
def tagWarehouses (inventory_dict : List (String × DataFrame)) :
    List (String × DataFrame) :=
  inventory_dict.map
    (fun p => (p.1, p.2.assignCol "Bodega" (PyVal.str (bodegaLabel p.1))))

/-- Embedding of merge_inventories (src/main.py lines 156-183). The Python
function mutates each DataFrame of the input dict in place (df["Bodega"] =
label) and then concatenates them; mutation is modelled by also returning
the post-state of the dict, as the association list of tagged frames. -/
def merge_inventories (inventory_dict : List (String × DataFrame)) :
    Option DataFrame × List (String × DataFrame) :=
  let merged_list := tagWarehouses inventory_dict
  if merged_list.isEmpty then (Option.none, merged_list)
  else (some (pdConcat (merged_list.map Prod.snd)), merged_list)

/-- The character sequence of the ".local" suffix. -/
def localChars : List Char := ['.', 'l', 'o', 'c', 'a', 'l']

/-- Python hostname.replace(".local", ""): scan left to right, removing each
non-overlapping occurrence of ".local", never rescanning text the removal
has joined together. -/
def stripLocalAll : List Char → List Char
  | '.' :: 'l' :: 'o' :: 'c' :: 'a' :: 'l' :: rest => stripLocalAll rest
  | c :: cs => c :: stripLocalAll cs
  | [] => []

/-- Python hostname.endswith(".local") on the character list. -/
def endsWithLocal (l : List Char) : Bool :=
  decide (l.drop (l.length - 6) = localChars)

/-- Embedding of get_clean_hostname (src/main.py lines 12-16) on the
hostname's character list: when the hostname ends with ".local", the source
calls hostname.replace(".local", ""), which removes every occurrence;
otherwise the hostname is returned unchanged. -/
def get_clean_hostname (hostname : List Char) : List Char :=
  if endsWithLocal hostname then stripLocalAll hostname else hostname

/-- Modelled from the spec's words, for comparison only: remove a single
trailing ".local" suffix when present, leave the hostname unchanged
otherwise. -/
def spec_clean_hostname (hostname : List Char) : List Char :=
  if endsWithLocal hostname then hostname.take (hostname.length - 6) else hostname

/-- Number of columns of a worksheet grid (openpyxl max_column over the used
range). -/
def numCols (grid : List (List PyVal)) : Nat :=
  grid.foldl (fun m r => max m r.length) 0

/-- Cells of column j from top to bottom; openpyxl yields a None-valued cell
where a row does not reach column j. -/
def colOf (grid : List (List PyVal)) (j : Nat) : List PyVal :=
  grid.map (fun r => r.getD j PyVal.none)

/-- The width measurement loop of format_excel_file (src/main.py lines
213-221): the running maximum of len(str(cell.value)) over the cells of a
column whose value passes the truthiness guard if cell.value: . -/
def maxContentLength (cells : List PyVal) : Nat :=
  cells.foldl
    (fun max_length v =>
      if v.truthy then
        (if v.pyStr.length > max_length then v.pyStr.length else max_length)
      else max_length) 0

/-- Modelled from the spec's words, for comparison only: the maximum
len(str(cell.value)) over the non-empty (non-None) cells of a column. -/
def maxNonEmptyLength (cells : List PyVal) : Nat :=
  cells.foldl
    (fun m v =>
      if v ≠ PyVal.none then (if v.pyStr.length > m then v.pyStr.length else m)
      else m) 0

/-- The header scan of format_excel_file (src/main.py lines 230-238): walk
the first row once, remembering the position of the (last) cell whose value
is the string "Bodega" and of the (last) cell whose value is "CODIGO WMS". -/
def scanHeaderAux (i : Nat) (acc : Option Nat × Option Nat) :
    List PyVal → Option Nat × Option Nat
  | [] => acc
  | v :: vs =>
    scanHeaderAux (i + 1)
      (if v = PyVal.str "Bodega" then (some i, acc.2)
       else if v = PyVal.str "CODIGO WMS" then (acc.1, some i)
       else acc) vs

/-- Positions of the Bodega column and of the CODIGO WMS column, if found. -/
def scanHeader (header : List PyVal) : Option Nat × Option Nat :=
  scanHeaderAux 0 (Option.none, Option.none) header

/-- Fill color set on a Bodega cell keyed by its literal value (src/main.py
lines 241-248); a cell with any other value keeps no fill. -/
def fillColor (v : PyVal) : Option String :=
  if v = PyVal.str "Bodega OPL" then some "ADD8E6"
  else if v = PyVal.str "Bodega E" then some "90EE90"
  else if v = PyVal.str "Bodegas MOBU" then some "FFA07A"
  else Option.none

/-- Fill state of every cell after the coloring pass: when a Bodega header
column was located, each data row's cell in that column gets the fill keyed
by its value; every other cell keeps no fill. -/
def applyFills (grid : List (List PyVal)) : Option Nat → List (List (Option String))
  | Option.none => grid.map (fun r => r.map (fun _ => Option.none))
  | some j =>
    match grid with
    | [] => []
    | header :: body =>
      header.map (fun _ => Option.none) ::
        body.map (fun r =>
          (List.range r.length).map
            (fun k => if k = j then fillColor (r.getD j PyVal.none) else Option.none))

/-- Cell values after the CODIGO WMS pass (src/main.py lines 250-255): when
that header column was located, each data row's non-None, non-string cell in
that column is replaced by str(value). -/
def applyCoerce (grid : List (List PyVal)) : Option Nat → List (List PyVal)
  | Option.none => grid
  | some j =>
    match grid with
    | [] => []
    | header :: body =>
      header :: body.map (fun r =>
        if (r.getD j PyVal.none) ≠ PyVal.none ∧ (r.getD j PyVal.none).isStr = false
        then r.set j (PyVal.str (r.getD j PyVal.none).pyStr)
        else r)

/-- Observable outcome of format_excel_file on a worksheet grid: the column
widths, the per-cell fills, and the final cell values. The font passes of
the source touch no value, width or fill and carry no claimed property. -/
structure FormattedSheet where
  widths : List Nat
  fills : List (List (Option String))
  values : List (List PyVal)
deriving Repr

/-- Embedding of format_excel_file (src/main.py lines 188-257) on the value
grid of the just-written worksheet (first row = header): widths are measured
from the original values, the header row is scanned once for the literal
labels "Bodega" and "CODIGO WMS", then fills and the string coercion are
applied to the located columns. -/
def format_excel_file (grid : List (List PyVal)) : FormattedSheet :=
  let scan := scanHeader (grid.headD [])
  FormattedSheet.mk
    ((List.range (numCols grid)).map (fun j => maxContentLength (colOf grid j) + 2))
    (applyFills grid scan.1)
    (applyCoerce grid scan.2)

/-- Fill of the cell at 0-based row r and column k (no fill off the grid). -/
def fillAt (fills : List (List (Option String))) (r k : Nat) : Option String :=
  (fills.getD r []).getD k Option.none

/-- Value of the cell at 0-based row r and column k (None off the grid). -/
def valAt (grid : List (List PyVal)) (r k : Nat) : PyVal :=
  (grid.getD r []).getD k PyVal.none

/-- State of the filesystem at one path, as read_excel_file can observe it:
the path does not exist, or parsing it raises with some message, or parsing
yields a table. -/
inductive FileState where
  | absent
  | unreadable (err : String)
  | table (df : DataFrame)
deriving DecidableEq, Repr

/-- Embedding of read_excel_file (src/main.py lines 53-73): the optional
result together with the lines printed. -/
def read_excel_file (fs : String → FileState) (file_path : String) :
    Option DataFrame × List String :=
  match fs file_path with
  | FileState.table df => (some df, ["Successfully loaded: " ++ file_path])
  | FileState.unreadable e =>
    (Option.none, ["Error reading " ++ file_path ++ ": " ++ e])
  | FileState.absent => (Option.none, ["File not found: " ++ file_path])

/-- The executing platform kind, as distinguished by os.name. -/
inductive OSKind where
  | nt
  | posix
deriving DecidableEq, Repr

/-- Embedding of get_base_path (src/main.py lines 29-51). -/
def get_base_path (os : OSKind) (warehouse : String) : Option String :=
  match os with
  | OSKind.nt =>
    if pyUpper warehouse = "OPL" then
      some "\\\\192.168.10.18\\Bodega General\\LIVSMART\\BODEGA OPL\\STOCK ACTUALIZADO - OPL"
    else if pyUpper warehouse = "E" then
      some "\\\\192.168.10.18\\Bodega General\\LIVSMART\\BODEGA E\\STOCK ACTUALIZADO - BODEGA E"
    else if pyUpper warehouse = "MOBU" then
      some "\\\\192.168.10.18\\Bodega General\\LIVSMART\\BODEGAS MOBU\\STOCK ACTUALIZADO - MOBU"
    else Option.none
  | OSKind.posix =>
    if pyUpper warehouse = "OPL" then
      some "/Volumes/Bodega General/LIVSMART/BODEGA OPL/STOCK ACTUALIZADO - OPL/"
    else if pyUpper warehouse = "E" then
      some "/Volumes/Bodega General/LIVSMART/BODEGA E/STOCK ACTUALIZADO - BODEGA E/"
    else if pyUpper warehouse = "MOBU" then
      some "/Volumes/Bodega General/LIVSMART/BODEGAS MOBU/STOCK ACTUALIZADO - MOBU/"
    else Option.none

/-- Whether a string ends with the given character. -/
def endsWithChar (s : String) (c : Char) : Bool :=
  s.toList.getLast? == some c

/-- Python os.path.join with the platform's separator, added only when the
base does not already end with one. -/
def pathJoin (os : OSKind) (base name : String) : String :=
  match os with
  | OSKind.nt => if endsWithChar base '\\' then base ++ name else base ++ "\\" ++ name
  | OSKind.posix => if endsWithChar base '/' then base ++ name else base ++ "/" ++ name

/-- The fixed per-category, per-warehouse file names of process_inventory
(src/main.py lines 104-120). -/
def inventory_files : List (String × List (String × String)) :=
  [("LATA",
     [("OPL", "INVENTARIO LATA VACIA 2025 BODOPL.xlsx"),
      ("E", "INVENTARIO LATA VACIA 2025 BODE.xlsx"),
      ("MOBU", "INVENTARIO LATA VACIA 2025 MOBU.xlsx")]),
   ("PREFORMA",
     [("OPL", "INVENTARIO DE PREFORMA 2025 BODOPL.xlsx"),
      ("E", "INVENTARIO DE PREFORMA 2025 BODE.xlsx"),
      ("MOBU", "INVENTARIO DE PREFORMA 2025 BODMOBU.xlsx")]),
   ("PT",
     [("OPL", "INVENTARIO DE PT.XLSX"),
      ("E", "INVENTARIO DE PT.XLSX"),
      ("MOBU", "INVENTARIO DE PT.XLSX")])]

/-- The fixed warehouse iteration order of process_inventory. -/
def warehouses : List String := ["OPL", "E", "MOBU"]

/-- One iteration of the warehouse loop of process_inventory (src/main.py
lines 129-149): resolve the base path, emit the diagnostic listing header
(the body of list_directory_contents is print-only output of os.listdir and
carries no data the program uses), resolve the file name, and delegate to
the loader; yields the loaded table, if any, and the lines printed. -/
def warehouseStep (os : OSKind) (fs : String → FileState)
    (files : List (String × String)) (inventory_type warehouse : String) :
    Option DataFrame × List String :=
  match get_base_path os warehouse with
  | Option.none =>
    (Option.none, ["Could not determine base path for warehouse: " ++ warehouse])
  | some base_path =>
    match files.lookup warehouse with
    | Option.none =>
      (Option.none,
        ["--- Listing contents for warehouse " ++ warehouse ++ " ---",
         "No filename defined for " ++ inventory_type ++ " in warehouse " ++
           warehouse ++ "."])
    | some file_name =>
      if file_name = "" then
        (Option.none,
          ["--- Listing contents for warehouse " ++ warehouse ++ " ---",
           "No filename defined for " ++ inventory_type ++ " in warehouse " ++
             warehouse ++ "."])
      else
        let file_path := pathJoin os base_path file_name
        let res := read_excel_file fs file_path
        match res.1 with
        | some df =>
          (some df,
            ["--- Listing contents for warehouse " ++ warehouse ++ " ---",
             "Looking for file: " ++ file_path] ++ res.2)
        | Option.none =>
          (Option.none,
            ["--- Listing contents for warehouse " ++ warehouse ++ " ---",
             "Looking for file: " ++ file_path] ++ res.2 ++
            ["Skipping " ++ warehouse ++ " for " ++ inventory_type ++
              " as file could not be loaded."])

/-- Embedding of process_inventory (src/main.py lines 94-151): the
warehouse-keyed collection of successfully loaded tables, in the fixed
iteration order, together with the lines printed. -/
def process_inventory (os : OSKind) (fs : String → FileState)
    (inventory_type : String) : List (String × DataFrame) × List String :=
  match inventory_files.lookup inventory_type with
  | Option.none => ([], ["Unknown inventory type: " ++ inventory_type])
  | some files =>
    warehouses.foldl
      (fun acc warehouse =>
        let step := warehouseStep os fs files inventory_type warehouse
        match step.1 with
        | some df => (acc.1 ++ [(warehouse, df)], acc.2 ++ step.2)
        | Option.none => (acc.1, acc.2 ++ step.2)) ([], [])

/-- The full path process_inventory builds for one category and warehouse. -/
def inventory_file_path (os : OSKind) (t w : String) : Option String :=
  match get_base_path os w, (inventory_files.lookup t).bind (fun m => m.lookup w) with
  | some bp, some fn => some (pathJoin os bp fn)
  | _, _ => Option.none

/-- Sample OPL inventory table used by concrete witnesses. -/
def sampleOPL : DataFrame :=
  DataFrame.mk ["CODIGO WMS", "CANT"]
    [[PyVal.str "A1", PyVal.int 5], [PyVal.str "A2", PyVal.int 7]]

/-- Sample MOBU inventory table used by concrete witnesses. -/
def sampleMOBU : DataFrame :=
  DataFrame.mk ["CODIGO WMS"]
    [[PyVal.str "B1"], [PyVal.str "B2"], [PyVal.str "B3"]]

/-- Sample table that already carries a Bodega column. -/
def sampleWithBodega : DataFrame :=
  DataFrame.mk ["Bodega", "CANT"]
    [[PyVal.str "old", PyVal.int 3]]

/-- Sample worksheet grid with a CODIGO WMS column and a Bodega column. -/
def sampleGrid : List (List PyVal) :=
  [[PyVal.str "CODIGO WMS", PyVal.str "Bodega"],
   [PyVal.int 701, PyVal.str "Bodega OPL"],
   [PyVal.str "X2", PyVal.str "Bodega E"],
   [PyVal.none, PyVal.str "Bodegas MOBU"],
   [PyVal.int 9, PyVal.str "Bodega X"]]

/-- Sample file state for the loader witness. -/
def sampleFS6 : String → FileState := fun p =>
  if p = "ok.xlsx" then FileState.table sampleOPL
  else if p = "bad.xlsx" then FileState.unreadable "boom"
  else FileState.absent

/-- Sample file state where the OPL and MOBU LATA files load and the
E file is missing. -/
def sampleFS : String → FileState := fun p =>
  if p = "/Volumes/Bodega General/LIVSMART/BODEGA OPL/STOCK ACTUALIZADO - OPL/INVENTARIO LATA VACIA 2025 BODOPL.xlsx"
  then FileState.table sampleOPL
  else if p = "/Volumes/Bodega General/LIVSMART/BODEGAS MOBU/STOCK ACTUALIZADO - MOBU/INVENTARIO LATA VACIA 2025 MOBU.xlsx"
  then FileState.table sampleMOBU
  else FileState.absent

/-! Basic facts about column lookup. -/

theorem idxOfCol_eq_none_iff (c : String) (l : List String) :
    idxOfCol c l = Option.none ↔ c ∉ l := by
  induction l with
  | nil => simp [idxOfCol]
  | cons x xs ih =>
    by_cases hx : x = c
    · subst hx
      simp [idxOfCol]
    · simp only [idxOfCol, if_neg hx, List.mem_cons]
      rw [Option.map_eq_none', ih]
      constructor
      · intro hn hc
        rcases hc with hc | hc
        · exact hx hc.symm
        · exact hn hc
      · intro hn
        exact fun hc => hn (Or.inr hc)

theorem idxOfCol_mem (c : String) (l : List String) (h : c ∈ l) :
    ∃ i, idxOfCol c l = some i := by
  cases hi : idxOfCol c l with
  | none => exact absurd h ((idxOfCol_eq_none_iff c l).mp hi)
  | some i => exact ⟨i, rfl⟩

theorem idxOfCol_get (c : String) (l : List String) (i : Nat)
    (h : idxOfCol c l = some i) : l.get? i = some c := by
  induction l generalizing i with
  | nil => simp [idxOfCol] at h
  | cons x xs ih =>
    by_cases hx : x = c
    · subst hx
      simp [idxOfCol] at h
      simp [← h]
    · simp only [idxOfCol, if_neg hx] at h
      cases hxs : idxOfCol c xs with
      | none => simp [hxs] at h
      | some j =>
        simp [hxs] at h
        subst h
        simpa using ih j hxs

theorem idxOfCol_lt (c : String) (l : List String) (i : Nat)
    (h : idxOfCol c l = some i) : i < l.length := by
  by_contra hge
  have : l.get? i = Option.none := List.get?_eq_none.mpr (Nat.le_of_not_lt hge)
  rw [idxOfCol_get c l i h] at this
  exact Option.noConfusion this

theorem idxOfCol_append_left (c : String) (l1 l2 : List String) (h : c ∈ l1) :
    idxOfCol c (l1 ++ l2) = idxOfCol c l1 := by
  induction l1 with
  | nil => simp at h
  | cons x xs ih =>
    by_cases hx : x = c
    · simp [idxOfCol, hx]
    · have hc : c ∈ xs := by
        rcases List.mem_cons.mp h with h1 | h1
        · exact absurd h1.symm hx
        · exact h1
      simp [idxOfCol, hx, ih hc]

theorem idxOfCol_append_self (c : String) (l1 : List String) (h : c ∉ l1) :
    idxOfCol c (l1 ++ [c]) = some l1.length := by
  induction l1 with
  | nil => simp [idxOfCol]
  | cons x xs ih =>
    have hx : x ≠ c := fun he => h (by simp [he])
    have hxs : c ∉ xs := fun hc => h (by simp [hc])
    simp [idxOfCol, hx, ih hxs]

/-! Facts about the in-place scalar column assignment. -/

theorem assignCol_cols (df : DataFrame) (c : String) (v : PyVal) :
    (df.assignCol c v).cols = if c ∈ df.cols then df.cols else df.cols ++ [c] := by
  unfold DataFrame.assignCol
  cases h : idxOfCol c df.cols with
  | none =>
    have : c ∉ df.cols := (idxOfCol_eq_none_iff c df.cols).mp h
    simp [this]
  | some i =>
    have : c ∈ df.cols := List.get?_mem (idxOfCol_get c df.cols i h)
    simp [this]

theorem assignCol_rows_length (df : DataFrame) (c : String) (v : PyVal) :
    (df.assignCol c v).rows.length = df.rows.length := by
  unfold DataFrame.assignCol
  cases idxOfCol c df.cols <;> simp

theorem assignCol_rect (df : DataFrame) (c : String) (v : PyVal)
    (h : df.Rect) : (df.assignCol c v).Rect := by
  unfold DataFrame.assignCol DataFrame.Rect
  cases hi : idxOfCol c df.cols with
  | none =>
    intro r hr
    simp only at hr ⊢
    rcases List.mem_map.mp hr with ⟨r0, hr0, rfl⟩
    simp [h r0 hr0]
  | some i =>
    intro r hr
    simp only at hr ⊢
    rcases List.mem_map.mp hr with ⟨r0, hr0, rfl⟩
    simp [h r0 hr0]

theorem assignCol_nodup (df : DataFrame) (c : String) (v : PyVal)
    (h : df.cols.Nodup) : (df.assignCol c v).cols.Nodup := by
  rw [assignCol_cols]
  by_cases hc : c ∈ df.cols
  · simpa [hc]
  · simp only [hc, if_false]
    exact List.Nodup.append h (List.nodup_singleton c) (by simpa using hc)

theorem mem_assignCol_cols_self (df : DataFrame) (c : String) (v : PyVal) :
    c ∈ (df.assignCol c v).cols := by
  rw [assignCol_cols]
  by_cases hc : c ∈ df.cols <;> simp [hc]

theorem mem_assignCol_cols_iff (df : DataFrame) (c c' : String) (v : PyVal) :
    c' ∈ (df.assignCol c v).cols ↔ c' ∈ df.cols ∨ c' = c := by
  rw [assignCol_cols]
  by_cases hc : c ∈ df.cols
  · simp only [hc, if_true]
    constructor
    · exact Or.inl
    · rintro (h | rfl)
      · exact h
      · exact hc
  · simp [hc]

theorem cellAt_assignCol_self (df : DataFrame) (c : String) (v : PyVal)
    (hrect : df.Rect) (row : List PyVal)
    (hrow : row ∈ (df.assignCol c v).rows) :
    cellAt (df.assignCol c v).cols row c = v := by
  unfold DataFrame.assignCol at hrow ⊢
  cases hi : idxOfCol c df.cols with
  | none =>
    simp only [hi] at hrow ⊢
    rcases List.mem_map.mp hrow with ⟨r0, hr0, rfl⟩
    have hnotmem : c ∉ df.cols := (idxOfCol_eq_none_iff c df.cols).mp hi
    simp only [cellAt, idxOfCol_append_self c df.cols hnotmem]
    rw [List.getD_eq_get?, ← hrect r0 hr0, List.get?_append_right (Nat.le_refl _)]
    simp
  | some i =>
    simp only [hi] at hrow ⊢
    rcases List.mem_map.mp hrow with ⟨r0, hr0, rfl⟩
    simp only [cellAt, hi]
    have hlt : i < r0.length := by
      rw [hrect r0 hr0]
      exact idxOfCol_lt c df.cols i hi
    rw [List.getD_eq_get?, List.get?_set_eq]
    rw [List.get?_eq_get hlt]
    simp

theorem cellAt_assignCol_ne (df : DataFrame) (c c' : String) (v : PyVal)
    (hrect : df.Rect) (hne : c' ≠ c) (k : Nat) :
    cellAt (df.assignCol c v).cols ((df.assignCol c v).rows.getD k []) c'
      = cellAt df.cols (df.rows.getD k []) c' := by
  unfold DataFrame.assignCol
  cases hi : idxOfCol c df.cols with
  | some i =>
    simp only
    rw [List.getD_eq_get?, List.getD_eq_get?, List.get?_map]
    cases hk : df.rows.get? k with
    | none => simp
    | some r =>
      simp only [Option.map_some', Option.getD_some]
      unfold cellAt
      cases hi' : idxOfCol c' df.cols with
      | none => rfl
      | some j =>
        have hij : j ≠ i := by
          intro he
          subst he
          have h1 := idxOfCol_get c df.cols j hi
          have h2 := idxOfCol_get c' df.cols j hi'
          rw [h1] at h2
          exact hne (Option.some.inj h2).symm
        show (r.set i v).getD j PyVal.nan = r.getD j PyVal.nan
        rw [List.getD_eq_get?, List.getD_eq_get?, List.get?_set_ne v r hij.symm]
  | none =>
    simp only
    rw [List.getD_eq_get?, List.getD_eq_get?, List.get?_map]
    have hcnot : c ∉ df.cols := (idxOfCol_eq_none_iff c df.cols).mp hi
    have hidx : idxOfCol c' (df.cols ++ [c]) = idxOfCol c' df.cols := by
      by_cases hc' : c' ∈ df.cols
      · exact idxOfCol_append_left c' df.cols [c] hc'
      · have : c' ∉ df.cols ++ [c] := by
          intro hmem
          rcases List.mem_append.mp hmem with hl | hr
          · exact hc' hl
          · exact hne (List.mem_singleton.mp hr)
        rw [(idxOfCol_eq_none_iff c' _).mpr this, (idxOfCol_eq_none_iff c' _).mpr hc']
    cases hk : df.rows.get? k with
    | none =>
      simp only [Option.map_none', Option.getD_none]
      unfold cellAt
      rw [hidx]
    | some r =>
      simp only [Option.map_some', Option.getD_some]
      unfold cellAt
      rw [hidx]
      cases hi' : idxOfCol c' df.cols with
      | none => rfl
      | some j =>
        have hlt : j < r.length := by
          rw [hrect r (List.get?_mem hk)]
          exact idxOfCol_lt c' df.cols j hi'
        show (r ++ [v]).getD j PyVal.nan = r.getD j PyVal.nan
        rw [List.getD_eq_get?, List.getD_eq_get?, List.get?_append hlt]

/-! Facts about the unioned column axis and row alignment of pd.concat. -/

theorem mem_unionCols_foldl (dfs : List DataFrame) (acc : List String) (c : String) :
    c ∈ dfs.foldl (fun a df => a ++ df.cols.filter (fun x => decide (x ∉ a))) acc ↔
      c ∈ acc ∨ ∃ df ∈ dfs, c ∈ df.cols := by
  induction dfs generalizing acc with
  | nil => simp
  | cons d ds ih =>
    simp only [List.foldl_cons, ih, List.mem_append, List.mem_filter, decide_eq_true_eq,
      List.mem_cons]
    constructor
    · rintro (((h | ⟨h1, h2⟩) | ⟨df, hdf, hc⟩))
      · exact Or.inl h
      · exact Or.inr ⟨d, Or.inl rfl, h1⟩
      · exact Or.inr ⟨df, Or.inr hdf, hc⟩
    · rintro (h | ⟨df, (rfl | hdf), hc⟩)
      · exact Or.inl (Or.inl h)
      · by_cases hacc : c ∈ acc
        · exact Or.inl (Or.inl hacc)
        · exact Or.inl (Or.inr ⟨hc, hacc⟩)
      · exact Or.inr ⟨df, hdf, hc⟩

theorem mem_unionCols (dfs : List DataFrame) (c : String) :
    c ∈ unionCols dfs ↔ ∃ df ∈ dfs, c ∈ df.cols := by
  unfold unionCols
  rw [mem_unionCols_foldl]
  simp

theorem nodup_unionCols_foldl (dfs : List DataFrame) (acc : List String)
    (hacc : acc.Nodup) (hdfs : ∀ df ∈ dfs, df.cols.Nodup) :
    (dfs.foldl (fun a df => a ++ df.cols.filter (fun x => decide (x ∉ a))) acc).Nodup := by
  induction dfs generalizing acc with
  | nil => simpa
  | cons d ds ih =>
    simp only [List.foldl_cons]
    refine ih _ ?_ (fun df hdf => hdfs df (List.mem_cons_of_mem d hdf))
    refine List.Nodup.append hacc ((hdfs d (List.mem_cons_self d ds)).filter _) ?_
    intro x hx hx2
    rcases List.mem_filter.mp hx2 with ⟨_, hdec⟩
    exact (decide_eq_true_eq.mp hdec) hx

theorem nodup_unionCols (dfs : List DataFrame)
    (hdfs : ∀ df ∈ dfs, df.cols.Nodup) : (unionCols dfs).Nodup :=
  nodup_unionCols_foldl dfs [] List.nodup_nil hdfs

theorem cellAt_alignRow (allCols cols : List String) (row : List PyVal) (c : String)
    (h : c ∈ allCols) :
    cellAt allCols (alignRow allCols cols row) c = cellAt cols row c := by
  rcases idxOfCol_mem c allCols h with ⟨i, hi⟩
  unfold cellAt alignRow
  rw [hi]
  show (List.map (fun c => cellAt cols row c) allCols).getD i PyVal.nan
    = match idxOfCol c cols with
      | some i => row.getD i PyVal.nan
      | Option.none => PyVal.nan
  rw [List.getD_eq_get?, List.get?_map, idxOfCol_get c allCols i hi]
  rfl

theorem mem_pdConcat_rows (dfs : List DataFrame) (row : List PyVal) :
    row ∈ (pdConcat dfs).rows ↔
      ∃ df ∈ dfs, ∃ r ∈ df.rows, row = alignRow (unionCols dfs) df.cols r := by
  unfold pdConcat
  simp only [List.mem_flatten, List.mem_map]
  constructor
  · rintro ⟨l, ⟨df, hdf, rfl⟩, hrow⟩
    rcases List.mem_map.mp hrow with ⟨r, hr, rfl⟩
    exact ⟨df, hdf, r, hr, rfl⟩
  · rintro ⟨df, hdf, r, hr, rfl⟩
    exact ⟨df.rows.map (alignRow (unionCols dfs) df.cols), ⟨df, hdf, rfl⟩,
      List.mem_map_of_mem _ hr⟩

/-! Facts about merge_inventories. -/

theorem merge_inventories_fst (d : List (String × DataFrame)) (hne : d ≠ []) :
    (merge_inventories d).1 = some (pdConcat ((tagWarehouses d).map Prod.snd)) := by
  unfold merge_inventories
  have h : (tagWarehouses d).isEmpty = false := by
    unfold tagWarehouses
    cases d with
    | nil => exact absurd rfl hne
    | cons a l => rfl
  simp [h]

theorem merge_inventories_snd (d : List (String × DataFrame)) :
    (merge_inventories d).2 = tagWarehouses d := by
  unfold merge_inventories
  by_cases h : (tagWarehouses d).isEmpty <;> simp [h]

theorem bodegaLabel_known (w : String) (h : w ∈ (["OPL", "E", "MOBU"] : List String)) :
    bodegaLabel w = "Bodega OPL" ∨ bodegaLabel w = "Bodega E" ∨
      bodegaLabel w = "Bodegas MOBU" := by
  simp only [List.mem_cons, List.not_mem_nil, or_false] at h
  rcases h with rfl | rfl | rfl
  · exact Or.inl (by decide)
  · exact Or.inr (Or.inl (by decide))
  · exact Or.inr (Or.inr (by decide))

/-- C3: merge_inventories returns absence exactly on the empty mapping; the
embedding is a total function (the source raises nowhere on this path), so
on every non-empty mapping the result is a table. -/
theorem merge_none_iff_empty (d : List (String × DataFrame)) :
    (merge_inventories d).1 = Option.none ↔ d = [] := by
  constructor
  · intro h
    by_contra hne
    rw [merge_inventories_fst d hne] at h
    exact Option.noConfusion h
  · rintro rfl
    rfl

/-- C1: on a non-empty collector mapping whose keys are drawn from OPL, E and
MOBU (tables rectangular, column labels distinct), merge_inventories returns
a merged table whose Bodega column occurs exactly once, and every row's value
there is a non-empty label drawn from the fixed label set. -/
theorem merged_table_bodega_invariant (d : List (String × DataFrame))
    (hne : d ≠ [])
    (hkeys : ∀ p ∈ d, p.1 ∈ (["OPL", "E", "MOBU"] : List String))
    (hrect : ∀ p ∈ d, p.2.Rect)
    (hnodup : ∀ p ∈ d, p.2.cols.Nodup) :
    ∃ m, (merge_inventories d).1 = some m ∧
      m.cols.count "Bodega" = 1 ∧
      ∀ row ∈ m.rows, ∃ s, cellAt m.cols row "Bodega" = PyVal.str s ∧
        s ≠ "" ∧ s ∈ (["Bodega OPL", "Bodega E", "Bodegas MOBU"] : List String) := by
  refine ⟨pdConcat ((tagWarehouses d).map Prod.snd), merge_inventories_fst d hne, ?_, ?_⟩
  · have hnd : ∀ df ∈ (tagWarehouses d).map Prod.snd, df.cols.Nodup := by
      intro df hdf
      rcases List.mem_map.mp hdf with ⟨p, hp, rfl⟩
      rcases List.mem_map.mp hp with ⟨q, hq, rfl⟩
      exact assignCol_nodup _ _ _ (hnodup q hq)
    have hmem : "Bodega" ∈ unionCols ((tagWarehouses d).map Prod.snd) := by
      rcases List.exists_mem_of_ne_nil d hne with ⟨p0, hp0⟩
      refine (mem_unionCols _ _).mpr
        ⟨p0.2.assignCol "Bodega" (PyVal.str (bodegaLabel p0.1)), ?_,
          mem_assignCol_cols_self _ _ _⟩
      exact List.mem_map_of_mem Prod.snd
        (List.mem_map_of_mem (fun p => (p.1, p.2.assignCol "Bodega"
          (PyVal.str (bodegaLabel p.1)))) hp0)
    exact List.count_eq_one_of_mem (nodup_unionCols _ hnd) hmem
  · intro row hrow
    rcases (mem_pdConcat_rows _ row).mp hrow with ⟨df, hdf, r, hr, rfl⟩
    have hdf' := hdf
    rcases List.mem_map.mp hdf with ⟨p, hp, rfl⟩
    rcases List.mem_map.mp hp with ⟨q, hq, rfl⟩
    have hBmem : "Bodega" ∈ unionCols ((tagWarehouses d).map Prod.snd) :=
      (mem_unionCols _ _).mpr ⟨_, hdf', mem_assignCol_cols_self _ _ _⟩
    refine ⟨bodegaLabel q.1, ?_, ?_, ?_⟩
    · have hcols : (pdConcat ((tagWarehouses d).map Prod.snd)).cols
          = unionCols ((tagWarehouses d).map Prod.snd) := rfl
      rw [hcols, cellAt_alignRow _ _ _ _ hBmem]
      exact cellAt_assignCol_self q.2 "Bodega" _ (hrect q hq) r hr
    · rcases bodegaLabel_known q.1 (hkeys q hq) with h | h | h <;> simp [h]
    · rcases bodegaLabel_known q.1 (hkeys q hq) with h | h | h <;> simp [h]

/-- Witness for C1 at a concrete two-warehouse mapping. -/
theorem merged_table_bodega_invariant_witness :
    ([("OPL", sampleOPL), ("MOBU", sampleMOBU)] : List (String × DataFrame)) ≠ [] ∧
    (∃ m, (merge_inventories [("OPL", sampleOPL), ("MOBU", sampleMOBU)]).1 = some m ∧
      m.cols.count "Bodega" = 1 ∧
      ∀ row ∈ m.rows, ∃ s, cellAt m.cols row "Bodega" = PyVal.str s ∧
        s ≠ "" ∧ s ∈ (["Bodega OPL", "Bodega E", "Bodegas MOBU"] : List String)) :=
  ⟨by decide,
    merged_table_bodega_invariant [("OPL", sampleOPL), ("MOBU", sampleMOBU)]
      (by decide) (by decide) (by decide) (by decide)⟩

/-- C2: merging a mapping holding a 2-row OPL table and a 3-row MOBU table
(in that insertion order) yields a 5-row merged table: positions 0-1 carry
Bodega = "Bodega OPL", positions 2-4 carry Bodega = "Bodegas MOBU" (the OPL
block precedes the MOBU block, and the row index is the contiguous position
0..4); the column set is the union of the tagged inputs' columns, i.e. the
inputs' own columns together with "Bodega". -/
theorem merge_opl_mobu_blocks (A B : DataFrame)
    (hA : A.rows.length = 2) (hB : B.rows.length = 3)
    (hArect : A.Rect) (hBrect : B.Rect) :
    ∃ m, (merge_inventories [("OPL", A), ("MOBU", B)]).1 = some m ∧
      m.rows.length = 5 ∧
      (∀ j, j < 2 →
        cellAt m.cols (m.rows.getD j []) "Bodega" = PyVal.str "Bodega OPL") ∧
      (∀ j, 2 ≤ j → j < 5 →
        cellAt m.cols (m.rows.getD j []) "Bodega" = PyVal.str "Bodegas MOBU") ∧
      (∀ c, c ∈ m.cols ↔ c ∈ A.cols ∨ c ∈ B.cols ∨ c = "Bodega") := by
  have hOPL : bodegaLabel "OPL" = "Bodega OPL" := by decide
  have hMOBU : bodegaLabel "MOBU" = "Bodegas MOBU" := by decide
  set A' := A.assignCol "Bodega" (PyVal.str (bodegaLabel "OPL")) with hA'
  set B' := B.assignCol "Bodega" (PyVal.str (bodegaLabel "MOBU")) with hB'
  have htag : (tagWarehouses [("OPL", A), ("MOBU", B)]).map Prod.snd = [A', B'] := rfl
  have hfst : (merge_inventories [("OPL", A), ("MOBU", B)]).1
      = some (pdConcat [A', B']) := by
    rw [merge_inventories_fst _ (by simp), htag]
  have lenA : A'.rows.length = 2 := by rw [hA', assignCol_rows_length, hA]
  have lenB : B'.rows.length = 3 := by rw [hB', assignCol_rows_length, hB]
  have hBU : "Bodega" ∈ unionCols [A', B'] :=
    (mem_unionCols _ _).mpr ⟨A', by simp, by rw [hA']; exact mem_assignCol_cols_self _ _ _⟩
  have hrows : (pdConcat [A', B']).rows
      = A'.rows.map (alignRow (unionCols [A', B']) A'.cols)
        ++ B'.rows.map (alignRow (unionCols [A', B']) B'.cols) := by
    simp [pdConcat]
  have hcols : (pdConcat [A', B']).cols = unionCols [A', B'] := rfl
  refine ⟨pdConcat [A', B'], hfst, ?_, ?_, ?_, ?_⟩
  · rw [hrows]
    simp [lenA, lenB]
  · intro j hj
    rw [hrows, hcols,
      List.getD_append _ _ _ j (by rw [List.length_map, lenA]; omega)]
    rw [List.getD_eq_get?, List.get?_map]
    cases hget : A'.rows.get? j with
    | none =>
      have := List.get?_eq_none.mp hget
      omega
    | some r =>
      simp only [Option.map_some', Option.getD_some]
      rw [cellAt_alignRow _ _ _ _ hBU]
      have h1 : cellAt A'.cols r "Bodega" = PyVal.str (bodegaLabel "OPL") :=
        cellAt_assignCol_self A "Bodega" _ hArect r (List.get?_mem hget)
      rw [h1, hOPL]
  · intro j hj2 hj5
    rw [hrows, hcols,
      List.getD_append_right _ _ _ j (by rw [List.length_map, lenA]; omega)]
    rw [List.getD_eq_get?, List.get?_map]
    cases hget : B'.rows.get? (j - (A'.rows.map
        (alignRow (unionCols [A', B']) A'.cols)).length) with
    | none =>
      have := List.get?_eq_none.mp hget
      rw [List.length_map] at this
      omega
    | some r =>
      simp only [Option.map_some', Option.getD_some]
      rw [cellAt_alignRow _ _ _ _ hBU]
      have h1 : cellAt B'.cols r "Bodega" = PyVal.str (bodegaLabel "MOBU") :=
        cellAt_assignCol_self B "Bodega" _ hBrect r (List.get?_mem hget)
      rw [h1, hMOBU]
  · intro c
    rw [hcols]
    rw [mem_unionCols]
    have hiff : (∃ df ∈ [A', B'], c ∈ df.cols) ↔ c ∈ A'.cols ∨ c ∈ B'.cols := by
      constructor
      · rintro ⟨df, hdf, hc⟩
        rcases List.mem_cons.mp hdf with rfl | hdf
        · exact Or.inl hc
        · rcases List.mem_cons.mp hdf with rfl | hdf
          · exact Or.inr hc
          · simp at hdf
      · rintro (hc | hc)
        · exact ⟨A', by simp, hc⟩
        · exact ⟨B', by simp, hc⟩
    rw [hiff, hA', hB', mem_assignCol_cols_iff, mem_assignCol_cols_iff]
    tauto

/-- Witness for C2 at concrete 2-row and 3-row tables. -/
theorem merge_opl_mobu_blocks_witness :
    sampleOPL.rows.length = 2 ∧ sampleMOBU.rows.length = 3 ∧
    (∃ m, (merge_inventories [("OPL", sampleOPL), ("MOBU", sampleMOBU)]).1 = some m ∧
      m.rows.length = 5 ∧
      (∀ j, j < 2 →
        cellAt m.cols (m.rows.getD j []) "Bodega" = PyVal.str "Bodega OPL") ∧
      (∀ j, 2 ≤ j → j < 5 →
        cellAt m.cols (m.rows.getD j []) "Bodega" = PyVal.str "Bodegas MOBU") ∧
      (∀ c, c ∈ m.cols ↔ c ∈ sampleOPL.cols ∨ c ∈ sampleMOBU.cols ∨ c = "Bodega")) :=
  ⟨by decide, by decide,
    merge_opl_mobu_blocks sampleOPL sampleMOBU (by decide) (by decide)
      (by decide) (by decide)⟩

/-- C10: merge_inventories updates every entry of the input dict in place
(modelled by the returned post-state): entry i keeps its key, its table's
Bodega column holds the warehouse label in every row — the column is
overwritten when the input already had one, appended otherwise — its row
count is unchanged, and every other column's cells are unchanged in every
row. -/
theorem merge_mutates_inputs (d : List (String × DataFrame)) (i : Nat)
    (p : String × DataFrame) (hd : d.get? i = some p) (hrect : p.2.Rect) :
    ∃ q, (merge_inventories d).2.get? i = some q ∧ q.1 = p.1 ∧
      q.2.cols = (if "Bodega" ∈ p.2.cols then p.2.cols else p.2.cols ++ ["Bodega"]) ∧
      q.2.rows.length = p.2.rows.length ∧
      (∀ row ∈ q.2.rows, cellAt q.2.cols row "Bodega" = PyVal.str (bodegaLabel p.1)) ∧
      (∀ c, c ≠ "Bodega" → ∀ k,
        cellAt q.2.cols (q.2.rows.getD k []) c
          = cellAt p.2.cols (p.2.rows.getD k []) c) := by
  refine ⟨(p.1, p.2.assignCol "Bodega" (PyVal.str (bodegaLabel p.1))), ?_, rfl,
    assignCol_cols _ _ _, assignCol_rows_length _ _ _, ?_, ?_⟩
  · rw [merge_inventories_snd]
    unfold tagWarehouses
    rw [List.get?_map, hd]
    rfl
  · intro row hrow
    exact cellAt_assignCol_self p.2 "Bodega" _ hrect row hrow
  · intro c hc k
    exact cellAt_assignCol_ne p.2 "Bodega" c _ hrect hc k

/-- Witness for C10 at a one-entry dict whose table already has a Bodega
column holding a stale value. -/
theorem merge_mutates_inputs_witness :
    ([("E", sampleWithBodega)] : List (String × DataFrame)).get? 0
        = some ("E", sampleWithBodega) ∧
    (∃ q, (merge_inventories [("E", sampleWithBodega)]).2.get? 0 = some q ∧
      q.1 = ("E", sampleWithBodega).1 ∧
      q.2.cols = (if "Bodega" ∈ sampleWithBodega.cols then sampleWithBodega.cols
        else sampleWithBodega.cols ++ ["Bodega"]) ∧
      q.2.rows.length = sampleWithBodega.rows.length ∧
      (∀ row ∈ q.2.rows,
        cellAt q.2.cols row "Bodega" = PyVal.str (bodegaLabel "E")) ∧
      (∀ c, c ≠ "Bodega" → ∀ k,
        cellAt q.2.cols (q.2.rows.getD k []) c
          = cellAt sampleWithBodega.cols (sampleWithBodega.rows.getD k []) c)) :=
  ⟨by decide,
    merge_mutates_inputs [("E", sampleWithBodega)] 0 ("E", sampleWithBodega)
      (by decide) (by decide)⟩

/-! Facts about the hostname cleaner. -/

theorem stripLocalAll_cons (c : Char) (cs : List Char)
    (h : (c :: cs).take 6 ≠ localChars) :
    stripLocalAll (c :: cs) = c :: stripLocalAll cs := by
  rw [stripLocalAll.eq_def]
  split
  · rename_i rest heq
    exfalso
    apply h
    rw [heq]
    simp [localChars, List.take]
  · rename_i c1 cs1 hno heq
    cases heq
    rfl
  · rename_i heq
    exact absurd heq (by simp)

theorem stripLocalAll_no_interior (pre : List Char)
    (hnot : ∀ p, p < pre.length → ((pre ++ localChars).drop p).take 6 ≠ localChars) :
    stripLocalAll (pre ++ localChars) = pre := by
  induction pre with
  | nil => rfl
  | cons c cs ih =>
    have h0 : ((c :: cs) ++ localChars).take 6 ≠ localChars := by
      have := hnot 0 (by simp)
      simpa using this
    rw [List.cons_append] at h0 ⊢
    rw [stripLocalAll_cons c (cs ++ localChars) h0]
    congr 1
    apply ih
    intro p hp
    have := hnot (p + 1) (by simp; omega)
    simpa using this

/-- C5 counterexample: on the hostname "a.local.local" the code removes both
occurrences of ".local" and yields "a", while the claim's single trailing
suffix strip would yield "a.local". -/
theorem hostname_clean_counterexample :
    get_clean_hostname ("a.local.local".toList) = "a".toList ∧
    spec_clean_hostname ("a.local.local".toList) = "a.local".toList ∧
    get_clean_hostname ("a.local.local".toList)
      ≠ spec_clean_hostname ("a.local.local".toList) := by
  decide

/-- C5 amended: when the hostname ends with ".local" and no other occurrence
of ".local" starts before the final suffix, the cleaned hostname is the
original with the trailing ".local" removed; when the hostname does not end
with ".local" it is returned unchanged, with no interior occurrence altered
(when it ends with ".local" and earlier occurrences exist, those are removed
as well, as the counterexample shows). -/
theorem hostname_clean_amended (pre : List Char)
    (hnot : ∀ p, p < pre.length →
      ((pre ++ localChars).drop p).take 6 ≠ localChars) :
    get_clean_hostname (pre ++ localChars) = pre ∧
    (∀ l : List Char, endsWithLocal l = false → get_clean_hostname l = l) := by
  have hsuf : endsWithLocal (pre ++ localChars) = true := by
    unfold endsWithLocal
    simp only [decide_eq_true_eq, List.length_append]
    have h6 : localChars.length = 6 := rfl
    rw [h6, Nat.add_sub_cancel]
    exact List.drop_left pre localChars
  constructor
  · simp only [get_clean_hostname, hsuf, if_true]
    exact stripLocalAll_no_interior pre hnot
  · intro l hl
    simp [get_clean_hostname, hl]

/-- Witness for the amended C5 at the hostname "JM-MBP.local". -/
theorem hostname_clean_amended_witness :
    (∀ p, p < ("JM-MBP".toList).length →
      ((("JM-MBP".toList) ++ localChars).drop p).take 6 ≠ localChars) ∧
    (get_clean_hostname (("JM-MBP".toList) ++ localChars) = "JM-MBP".toList ∧
      (∀ l : List Char, endsWithLocal l = false → get_clean_hostname l = l)) :=
  ⟨by decide, hostname_clean_amended ("JM-MBP".toList) (by decide)⟩

/-! Facts about the column width measurement. -/

theorem maxContentLength_foldl_le (cells : List PyVal) (acc L : Nat)
    (hacc : acc ≤ L)
    (hall : ∀ v ∈ cells, v.truthy = true → v.pyStr.length ≤ L) :
    cells.foldl
      (fun max_length v =>
        if v.truthy then
          (if v.pyStr.length > max_length then v.pyStr.length else max_length)
        else max_length) acc ≤ L := by
  induction cells generalizing acc with
  | nil => simpa
  | cons v vs ih =>
    simp only [List.foldl_cons]
    apply ih
    · by_cases ht : v.truthy
      · simp only [ht, if_true]
        by_cases hgt : v.pyStr.length > acc
        · simp only [hgt, if_true]
          exact hall v (List.mem_cons_self v vs) ht
        · simpa [hgt]
      · simpa [ht]
    · exact fun w hw => hall w (List.mem_cons_of_mem v hw)

theorem maxContentLength_foldl_acc_le (cells : List PyVal) (acc : Nat) :
    acc ≤ cells.foldl
      (fun max_length v =>
        if v.truthy then
          (if v.pyStr.length > max_length then v.pyStr.length else max_length)
        else max_length) acc := by
  induction cells generalizing acc with
  | nil => simp
  | cons v vs ih =>
    simp only [List.foldl_cons]
    refine le_trans ?_ (ih _)
    by_cases ht : v.truthy
    · simp only [ht, if_true]
      by_cases hgt : v.pyStr.length > acc
      · simp only [hgt, if_true]
        omega
      · simp [hgt]
    · simp [ht]

theorem le_maxContentLength_foldl (cells : List PyVal) (acc : Nat) (v : PyVal)
    (hv : v ∈ cells) (ht : v.truthy = true) :
    v.pyStr.length ≤ cells.foldl
      (fun max_length w =>
        if w.truthy then
          (if w.pyStr.length > max_length then w.pyStr.length else max_length)
        else max_length) acc := by
  induction cells generalizing acc with
  | nil => simp at hv
  | cons w ws ih =>
    simp only [List.foldl_cons]
    rcases List.mem_cons.mp hv with rfl | hv2
    · refine le_trans ?_ (maxContentLength_foldl_acc_le ws _)
      simp only [ht, if_true]
      by_cases hgt : v.pyStr.length > acc
      · simp [hgt]
      · simp only [hgt, if_false]
        omega
    · exact ih _ hv2

theorem maxContentLength_eq (cells : List PyVal) (L : Nat)
    (hall : ∀ v ∈ cells, v.truthy = true → v.pyStr.length ≤ L)
    (hex : ∃ v ∈ cells, v.truthy = true ∧ v.pyStr.length = L) :
    maxContentLength cells = L := by
  rcases hex with ⟨v, hv, ht, hL⟩
  refine le_antisymm ?_ ?_
  · exact maxContentLength_foldl_le cells 0 L (Nat.zero_le L) hall
  · rw [← hL]
    exact le_maxContentLength_foldl cells 0 v hv ht

/-- C4 counterexample: in the worksheet [[0]] the only cell is non-empty and
str(0) has length 1, so the claimed rule demands width 3; the truthiness
guard if cell.value: skips the 0 cell and the code sets width 2. -/
theorem column_width_counterexample :
    (format_excel_file [[PyVal.int 0]]).widths.getD 0 0 = 2 ∧
    maxNonEmptyLength (colOf [[PyVal.int 0]] 0) + 2 = 3 ∧
    (format_excel_file [[PyVal.int 0]]).widths.getD 0 0
      ≠ maxNonEmptyLength (colOf [[PyVal.int 0]] 0) + 2 := by
  decide

/-- C4 amended: every column's width is 2 plus the maximum character length
of str(cell.value) over the column's cells (header row included) whose value
is truthy, i.e. passes the guard if cell.value: — non-None, non-zero and
non-empty-string; in particular a column whose cell texts are all at most 12
characters long, with some truthy cell reaching 12, ends with width 14. -/
theorem column_width_rule (grid : List (List PyVal)) (j L : Nat)
    (hj : j < numCols grid)
    (hall : ∀ v ∈ colOf grid j, v.truthy = true → v.pyStr.length ≤ L)
    (hex : ∃ v ∈ colOf grid j, v.truthy = true ∧ v.pyStr.length = L) :
    (format_excel_file grid).widths.getD j 0 = L + 2 := by
  unfold format_excel_file
  simp only
  rw [List.getD_eq_get?, List.get?_map, List.get?_range hj]
  simp only [Option.map_some', Option.getD_some]
  rw [maxContentLength_eq _ L hall hex]

/-- Witness for the amended C4 on a column holding a 12-character text, a
1-character header and a zero cell. -/
theorem column_width_rule_witness :
    0 < numCols [[PyVal.str "H"], [PyVal.str "ABCDEFGHIJKL"], [PyVal.int 0]] ∧
    (format_excel_file
      [[PyVal.str "H"], [PyVal.str "ABCDEFGHIJKL"], [PyVal.int 0]]).widths.getD 0 0
      = 12 + 2 :=
  ⟨by decide,
    column_width_rule [[PyVal.str "H"], [PyVal.str "ABCDEFGHIJKL"], [PyVal.int 0]]
      0 12 (by decide) (by decide) (by decide)⟩

/-! Facts about the header scan. -/

theorem scanHeaderAux_fst_eq (i : Nat) (acc : Option Nat × Option Nat)
    (l : List PyVal) (h : PyVal.str "Bodega" ∉ l) :
    (scanHeaderAux i acc l).1 = acc.1 := by
  induction l generalizing i acc with
  | nil => rfl
  | cons v vs ih =>
    have hv : v ≠ PyVal.str "Bodega" := fun he => h (by simp [he])
    have hvs : PyVal.str "Bodega" ∉ vs := fun hm => h (by simp [hm])
    unfold scanHeaderAux
    rw [ih _ _ hvs]
    by_cases hc : v = PyVal.str "CODIGO WMS" <;> simp [hv, hc]

theorem scanHeaderAux_snd_eq (i : Nat) (acc : Option Nat × Option Nat)
    (l : List PyVal) (h : PyVal.str "CODIGO WMS" ∉ l) :
    (scanHeaderAux i acc l).2 = acc.2 := by
  induction l generalizing i acc with
  | nil => rfl
  | cons v vs ih =>
    have hv : v ≠ PyVal.str "CODIGO WMS" := fun he => h (by simp [he])
    have hvs : PyVal.str "CODIGO WMS" ∉ vs := fun hm => h (by simp [hm])
    unfold scanHeaderAux
    rw [ih _ _ hvs]
    by_cases hb : v = PyVal.str "Bodega" <;> simp [hv, hb]

theorem scanHeaderAux_fst_mem (i : Nat) (acc : Option Nat × Option Nat)
    (l : List PyVal) (h : PyVal.str "Bodega" ∈ l) :
    ∃ k, k < l.length ∧ l.getD k PyVal.none = PyVal.str "Bodega" ∧
      (scanHeaderAux i acc l).1 = some (i + k) := by
  induction l generalizing i acc with
  | nil => simp at h
  | cons v vs ih =>
    by_cases hvs : PyVal.str "Bodega" ∈ vs
    · rcases ih (i + 1)
        (if v = PyVal.str "Bodega" then (some i, acc.2)
         else if v = PyVal.str "CODIGO WMS" then (acc.1, some i)
         else acc) hvs with ⟨k, hk, hval, heq⟩
      refine ⟨k + 1, by simpa using hk, by simpa using hval, ?_⟩
      unfold scanHeaderAux
      rw [heq]
      congr 1
      omega
    · have hv : v = PyVal.str "Bodega" := by
        rcases List.mem_cons.mp h with he | he
        · exact he.symm
        · exact absurd he hvs
      refine ⟨0, by simp, by simp [hv], ?_⟩
      unfold scanHeaderAux
      rw [scanHeaderAux_fst_eq _ _ _ hvs]
      simp [hv]

theorem scanHeaderAux_snd_mem (i : Nat) (acc : Option Nat × Option Nat)
    (l : List PyVal) (h : PyVal.str "CODIGO WMS" ∈ l) :
    ∃ k, k < l.length ∧ l.getD k PyVal.none = PyVal.str "CODIGO WMS" ∧
      (scanHeaderAux i acc l).2 = some (i + k) := by
  induction l generalizing i acc with
  | nil => simp at h
  | cons v vs ih =>
    by_cases hvs : PyVal.str "CODIGO WMS" ∈ vs
    · rcases ih (i + 1)
        (if v = PyVal.str "Bodega" then (some i, acc.2)
         else if v = PyVal.str "CODIGO WMS" then (acc.1, some i)
         else acc) hvs with ⟨k, hk, hval, heq⟩
      refine ⟨k + 1, by simpa using hk, by simpa using hval, ?_⟩
      unfold scanHeaderAux
      rw [heq]
      congr 1
      omega
    · have hv : v = PyVal.str "CODIGO WMS" := by
        rcases List.mem_cons.mp h with he | he
        · exact he.symm
        · exact absurd he hvs
      refine ⟨0, by simp, by simp [hv], ?_⟩
      unfold scanHeaderAux
      rw [scanHeaderAux_snd_eq _ _ _ hvs]
      simp [hv]

theorem scanHeader_fst_none (header : List PyVal)
    (h : PyVal.str "Bodega" ∉ header) : (scanHeader header).1 = Option.none :=
  scanHeaderAux_fst_eq 0 (Option.none, Option.none) header h

theorem scanHeader_snd_none (header : List PyVal)
    (h : PyVal.str "CODIGO WMS" ∉ header) : (scanHeader header).2 = Option.none :=
  scanHeaderAux_snd_eq 0 (Option.none, Option.none) header h

theorem scanHeader_fst_some (header : List PyVal)
    (h : PyVal.str "Bodega" ∈ header) :
    ∃ j, j < header.length ∧ header.getD j PyVal.none = PyVal.str "Bodega" ∧
      (scanHeader header).1 = some j := by
  rcases scanHeaderAux_fst_mem 0 (Option.none, Option.none) header h with
    ⟨k, hk, hval, heq⟩
  exact ⟨k, hk, hval, by simpa using heq⟩

theorem scanHeader_snd_some (header : List PyVal)
    (h : PyVal.str "CODIGO WMS" ∈ header) :
    ∃ j, j < header.length ∧ header.getD j PyVal.none = PyVal.str "CODIGO WMS" ∧
      (scanHeader header).2 = some j := by
  rcases scanHeaderAux_snd_mem 0 (Option.none, Option.none) header h with
    ⟨k, hk, hval, heq⟩
  exact ⟨k, hk, hval, by simpa using heq⟩

/-! Facts about the fill pass. -/

theorem fillAt_applyFills_none (grid : List (List PyVal)) (r k : Nat) :
    fillAt (applyFills grid Option.none) r k = Option.none := by
  unfold fillAt applyFills
  simp only [List.getD_eq_getElem?_getD, List.getElem?_map]
  cases grid[r]? with
  | none => simp
  | some row =>
    simp only [Option.map_some', Option.getD_some, List.getElem?_map]
    cases row[k]? <;> simp

theorem fillAt_applyFills_header (g0 : List PyVal) (body : List (List PyVal))
    (j k : Nat) :
    fillAt (applyFills (g0 :: body) (some j)) 0 k = Option.none := by
  unfold fillAt applyFills
  simp only [List.getD_eq_getElem?_getD, List.getElem?_cons_zero, Option.getD_some,
    List.getElem?_map]
  cases g0[k]? <;> simp

theorem fillAt_applyFills_data (g0 : List PyVal) (body : List (List PyVal))
    (j r k : Nat) :
    fillAt (applyFills (g0 :: body) (some j)) (r + 1) k
      = (if k = j ∧ k < (body.getD r []).length
          then fillColor ((body.getD r []).getD j PyVal.none)
          else Option.none) := by
  unfold fillAt applyFills
  simp only [List.getD_eq_getElem?_getD, List.getElem?_cons_succ, List.getElem?_map]
  cases hrow : body[r]? with
  | none =>
    simp
  | some row =>
    simp only [Option.map_some', Option.getD_some, List.getElem?_map]
    by_cases hk : k < row.length
    · rw [List.getElem?_range hk]
      simp only [Option.map_some', Option.getD_some]
      by_cases hkj : k = j
      · subst hkj
        simp [hk]
      · simp [hkj]
    · have hnone : (List.range row.length)[k]? = Option.none :=
        List.getElem?_eq_none (by simpa using Nat.le_of_not_lt hk)
      rw [hnone]
      simp [hk]

theorem valAt_cons_succ (g0 : List PyVal) (body : List (List PyVal)) (r k : Nat) :
    valAt (g0 :: body) (r + 1) k = (body.getD r []).getD k PyVal.none := by
  unfold valAt
  rw [List.getD_cons_succ]

theorem getD_ne_none_lt (row : List PyVal) (j : Nat) (s : String)
    (h : row.getD j PyVal.none = PyVal.str s) : j < row.length := by
  by_contra hge
  rw [List.getD_eq_getElem?_getD, List.getElem?_eq_none (Nat.le_of_not_lt hge)] at h
  exact PyVal.noConfusion h

theorem fillColor_not_label (v : PyVal)
    (h : v ∉ ([PyVal.str "Bodega OPL", PyVal.str "Bodega E",
      PyVal.str "Bodegas MOBU"] : List PyVal)) : fillColor v = Option.none := by
  have h1 : v ≠ PyVal.str "Bodega OPL" := fun he => h (by simp [he])
  have h2 : v ≠ PyVal.str "Bodega E" := fun he => h (by simp [he])
  have h3 : v ≠ PyVal.str "Bodegas MOBU" := fun he => h (by simp [he])
  simp [fillColor, h1, h2, h3]

/-- C8: the provenance coloring of format_excel_file. If some header cell is
literally "Bodega", the scan locates a column j whose header cell is
"Bodega"; the header row stays unfilled, every cell outside column j stays
unfilled, and in column j each data row is filled light blue on
"Bodega OPL", light green on "Bodega E", light salmon on "Bodegas MOBU", and
left unfilled on any other or absent value; if no header cell is "Bodega",
no fill is applied anywhere. -/
theorem bodega_fill_rule (grid : List (List PyVal)) :
    (PyVal.str "Bodega" ∈ grid.headD [] →
      ∃ j, (grid.headD []).getD j PyVal.none = PyVal.str "Bodega" ∧
        (scanHeader (grid.headD [])).1 = some j ∧
        (∀ k, fillAt (format_excel_file grid).fills 0 k = Option.none) ∧
        (∀ r k, k ≠ j →
          fillAt (format_excel_file grid).fills (r + 1) k = Option.none) ∧
        (∀ r,
          (valAt grid (r + 1) j = PyVal.str "Bodega OPL" →
            fillAt (format_excel_file grid).fills (r + 1) j = some "ADD8E6") ∧
          (valAt grid (r + 1) j = PyVal.str "Bodega E" →
            fillAt (format_excel_file grid).fills (r + 1) j = some "90EE90") ∧
          (valAt grid (r + 1) j = PyVal.str "Bodegas MOBU" →
            fillAt (format_excel_file grid).fills (r + 1) j = some "FFA07A") ∧
          (valAt grid (r + 1) j ∉
              ([PyVal.str "Bodega OPL", PyVal.str "Bodega E",
                PyVal.str "Bodegas MOBU"] : List PyVal) →
            fillAt (format_excel_file grid).fills (r + 1) j = Option.none))) ∧
    (PyVal.str "Bodega" ∉ grid.headD [] →
      ∀ r k, fillAt (format_excel_file grid).fills r k = Option.none) := by
  have hfills : (format_excel_file grid).fills
      = applyFills grid (scanHeader (grid.headD [])).1 := rfl
  constructor
  · intro hmem
    rcases scanHeader_fst_some _ hmem with ⟨j, hjlt, hjval, hjscan⟩
    cases grid with
    | nil => simp at hmem
    | cons g0 body =>
      refine ⟨j, hjval, hjscan, ?_, ?_, ?_⟩
      · intro k
        rw [hfills, hjscan]
        exact fillAt_applyFills_header g0 body j k
      · intro r k hk
        rw [hfills, hjscan, fillAt_applyFills_data]
        simp [hk]
      · intro r
        have hfill : fillAt (format_excel_file (g0 :: body)).fills (r + 1) j
            = (if j < (body.getD r []).length
                then fillColor ((body.getD r []).getD j PyVal.none)
                else Option.none) := by
          rw [hfills, hjscan, fillAt_applyFills_data]
          by_cases hlen : j < (body.getD r []).length <;> simp [hlen]
        have hval : valAt (g0 :: body) (r + 1) j
            = (body.getD r []).getD j PyVal.none := valAt_cons_succ g0 body r j
        refine ⟨?_, ?_, ?_, ?_⟩
        · intro hv
          rw [hval] at hv
          rw [hfill, if_pos (getD_ne_none_lt _ _ _ hv), hv]
          decide
        · intro hv
          rw [hval] at hv
          rw [hfill, if_pos (getD_ne_none_lt _ _ _ hv), hv]
          decide
        · intro hv
          rw [hval] at hv
          rw [hfill, if_pos (getD_ne_none_lt _ _ _ hv), hv]
          decide
        · intro hv
          rw [hval] at hv
          rw [hfill]
          by_cases hlen : j < (body.getD r []).length
          · rw [if_pos hlen]
            exact fillColor_not_label _ hv
          · rw [if_neg hlen]
  · intro hmem r k
    rw [hfills, scanHeader_fst_none _ hmem]
    exact fillAt_applyFills_none grid r k

/-- Witness for C8 on a worksheet holding all three labels and an
unrecognized value under a Bodega header. -/
theorem bodega_fill_rule_witness :
    PyVal.str "Bodega" ∈ sampleGrid.headD [] ∧
    fillAt (format_excel_file sampleGrid).fills 1 1 = some "ADD8E6" ∧
    fillAt (format_excel_file sampleGrid).fills 2 1 = some "90EE90" ∧
    fillAt (format_excel_file sampleGrid).fills 3 1 = some "FFA07A" ∧
    fillAt (format_excel_file sampleGrid).fills 4 1 = Option.none ∧
    fillAt (format_excel_file sampleGrid).fills 1 0 = Option.none := by
  refine ⟨by decide, ?_⟩
  have h := (bodega_fill_rule sampleGrid).1 (by decide)
  rcases h with ⟨j, hjval, hjscan, hhdr, hother, hdata⟩
  have hj : j = 1 := by
    have : (scanHeader (sampleGrid.headD [])).1 = some 1 := by decide
    rw [this] at hjscan
    exact (Option.some.inj hjscan).symm
  subst hj
  refine ⟨?_, ?_, ?_, ?_, ?_⟩
  · exact (hdata 0).1 (by decide)
  · exact (hdata 1).2.1 (by decide)
  · exact (hdata 2).2.2.1 (by decide)
  · exact (hdata 3).2.2.2 (by decide)
  · exact hother 0 0 (by decide)

/-! Facts about the string coercion pass. -/

theorem getD_ne_none_length (row : List PyVal) (j : Nat)
    (h : row.getD j PyVal.none ≠ PyVal.none) : j < row.length := by
  by_contra hge
  rw [List.getD_eq_getElem?_getD, List.getElem?_eq_none (Nat.le_of_not_lt hge)] at h
  exact h rfl

theorem set_getD_self (row : List PyVal) (j : Nat) (w : PyVal)
    (hj : j < row.length) : (row.set j w).getD j PyVal.none = w := by
  rw [List.getD_eq_getElem?_getD, List.getElem?_set_self', List.getElem?_eq_getElem hj]
  rfl

theorem set_getD_ne (row : List PyVal) (j k : Nat) (w : PyVal) (hk : k ≠ j) :
    (row.set j w).getD k PyVal.none = row.getD k PyVal.none := by
  rw [List.getD_eq_getElem?_getD, List.getElem?_set_ne (fun he => hk he.symm),
    ← List.getD_eq_getElem?_getD]

theorem valAt_coerce_data (g0 : List PyVal) (body : List (List PyVal))
    (j r k : Nat) :
    valAt (applyCoerce (g0 :: body) (some j)) (r + 1) k
      = (if (body.getD r []).getD j PyVal.none ≠ PyVal.none ∧
            ((body.getD r []).getD j PyVal.none).isStr = false
         then ((body.getD r []).set j
            (PyVal.str ((body.getD r []).getD j PyVal.none).pyStr)).getD k PyVal.none
         else (body.getD r []).getD k PyVal.none) := by
  unfold valAt applyCoerce
  simp only [List.getD_eq_getElem?_getD, List.getElem?_cons_succ, List.getElem?_map]
  cases hrow : body[r]? with
  | none => simp
  | some row =>
    simp only [Option.map_some', Option.getD_some]
    by_cases hc : row.getD j PyVal.none ≠ PyVal.none ∧
        (row.getD j PyVal.none).isStr = false
    · simp only [List.getD_eq_getElem?_getD] at hc
      simp [hc]
    · simp only [List.getD_eq_getElem?_getD] at hc
      simp [hc]

/-- C9: the type normalization of format_excel_file. If some header cell is
literally "CODIGO WMS", the scan locates a column j whose header cell is
"CODIGO WMS"; the header row keeps its values, every cell outside column j
keeps its value, and in column j each data row's non-None non-string value v
becomes the string str(v) — an integer becomes its decimal text — while
string and None values are unchanged; if no header cell is "CODIGO WMS", no
cell value changes at all. -/
theorem codigo_wms_string_rule (grid : List (List PyVal)) :
    (PyVal.str "CODIGO WMS" ∈ grid.headD [] →
      ∃ j, (grid.headD []).getD j PyVal.none = PyVal.str "CODIGO WMS" ∧
        (scanHeader (grid.headD [])).2 = some j ∧
        (∀ k, valAt (format_excel_file grid).values 0 k = valAt grid 0 k) ∧
        (∀ r k, k ≠ j →
          valAt (format_excel_file grid).values (r + 1) k = valAt grid (r + 1) k) ∧
        (∀ r,
          (valAt grid (r + 1) j ≠ PyVal.none ∧
              (valAt grid (r + 1) j).isStr = false →
            valAt (format_excel_file grid).values (r + 1) j
              = PyVal.str (valAt grid (r + 1) j).pyStr) ∧
          (∀ n : Int, valAt grid (r + 1) j = PyVal.int n →
            valAt (format_excel_file grid).values (r + 1) j
              = PyVal.str (toString n)) ∧
          ((valAt grid (r + 1) j).isStr = true ∨ valAt grid (r + 1) j = PyVal.none →
            valAt (format_excel_file grid).values (r + 1) j
              = valAt grid (r + 1) j))) ∧
    (PyVal.str "CODIGO WMS" ∉ grid.headD [] →
      (format_excel_file grid).values = grid) := by
  have hvals : (format_excel_file grid).values
      = applyCoerce grid (scanHeader (grid.headD [])).2 := rfl
  constructor
  · intro hmem
    rcases scanHeader_snd_some _ hmem with ⟨j, hjlt, hjval, hjscan⟩
    cases grid with
    | nil => simp at hmem
    | cons g0 body =>
      refine ⟨j, hjval, hjscan, ?_, ?_, ?_⟩
      · intro k
        rw [hvals, hjscan]
        unfold valAt applyCoerce
        rw [List.getD_cons_zero, List.getD_cons_zero]
      · intro r k hk
        rw [hvals, hjscan, valAt_coerce_data, valAt_cons_succ]
        by_cases hc : (body.getD r []).getD j PyVal.none ≠ PyVal.none ∧
            ((body.getD r []).getD j PyVal.none).isStr = false
        · rw [if_pos hc, set_getD_ne _ _ _ _ hk]
        · rw [if_neg hc]
      · intro r
        have hval : valAt (g0 :: body) (r + 1) j
            = (body.getD r []).getD j PyVal.none := valAt_cons_succ g0 body r j
        refine ⟨?_, ?_, ?_⟩
        · intro hv
          rw [hval] at hv
          rw [hvals, hjscan, valAt_coerce_data, if_pos hv, hval,
            set_getD_self _ _ _ (getD_ne_none_length _ _ hv.1)]
        · intro n hv
          rw [hval] at hv
          have hcond : (body.getD r []).getD j PyVal.none ≠ PyVal.none ∧
              ((body.getD r []).getD j PyVal.none).isStr = false := by
            rw [hv]
            exact ⟨fun he => PyVal.noConfusion he, rfl⟩
          rw [hvals, hjscan, valAt_coerce_data, if_pos hcond,
            set_getD_self _ _ _ (getD_ne_none_length _ _ hcond.1), hv]
          rfl
        · intro hv
          rw [hval] at hv
          have hcond : ¬ ((body.getD r []).getD j PyVal.none ≠ PyVal.none ∧
              ((body.getD r []).getD j PyVal.none).isStr = false) := by
            rcases hv with hv | hv
            · intro hc
              rw [hv] at hc
              exact Bool.noConfusion hc.2
            · intro hc
              exact hc.1 hv
          rw [hvals, hjscan, valAt_coerce_data, if_neg hcond, hval]
  · intro hmem
    rw [hvals, scanHeader_snd_none _ hmem]
    rfl

/-- Witness for C9 on a worksheet holding an integer, a string and a None
cell under a CODIGO WMS header. -/
theorem codigo_wms_string_rule_witness :
    PyVal.str "CODIGO WMS" ∈ sampleGrid.headD [] ∧
    valAt (format_excel_file sampleGrid).values 1 0 = PyVal.str "701" ∧
    valAt (format_excel_file sampleGrid).values 2 0 = PyVal.str "X2" ∧
    valAt (format_excel_file sampleGrid).values 3 0 = PyVal.none ∧
    valAt (format_excel_file sampleGrid).values 1 1 = valAt sampleGrid 1 1 := by
  refine ⟨by decide, ?_⟩
  have h := (codigo_wms_string_rule sampleGrid).1 (by decide)
  rcases h with ⟨j, hjval, hjscan, hhdr, hother, hdata⟩
  have hj : j = 0 := by
    have : (scanHeader (sampleGrid.headD [])).2 = some 0 := by decide
    rw [this] at hjscan
    exact (Option.some.inj hjscan).symm
  subst hj
  refine ⟨?_, ?_, ?_, ?_⟩
  · have := (hdata 0).2.1 701 (by decide)
    rw [this]
    rfl
  · have := (hdata 1).2.2 (Or.inl (by decide))
    rw [this]
    decide
  · have := (hdata 2).2.2 (Or.inr (by decide))
    rw [this]
    decide
  · exact hother 0 1 (by decide)

/-! Facts about the loader and the collector. -/

/-- C6: read_excel_file is a total function of the observed file state (the
source catches every parse fault): a missing path yields the "File not
found" line and absence; a path whose parse raises is caught, the cause is
logged in the "Error reading" line, and the result is absence; a successful
parse returns the table and logs the source path. -/
theorem read_excel_file_contract (fs : String → FileState) (p : String) :
    (fs p = FileState.absent →
      read_excel_file fs p = (Option.none, ["File not found: " ++ p])) ∧
    (∀ e, fs p = FileState.unreadable e →
      read_excel_file fs p
        = (Option.none, ["Error reading " ++ p ++ ": " ++ e])) ∧
    (∀ df, fs p = FileState.table df →
      read_excel_file fs p = (some df, ["Successfully loaded: " ++ p])) := by
  refine ⟨?_, ?_, ?_⟩
  · intro h
    unfold read_excel_file
    rw [h]
  · intro e h
    unfold read_excel_file
    rw [h]
  · intro df h
    unfold read_excel_file
    rw [h]

/-- Witness for C6 exercising all three file states. -/
theorem read_excel_file_contract_witness :
    (sampleFS6 "missing.xlsx" = FileState.absent ∧
      read_excel_file sampleFS6 "missing.xlsx"
        = (Option.none, ["File not found: " ++ "missing.xlsx"])) ∧
    (sampleFS6 "bad.xlsx" = FileState.unreadable "boom" ∧
      read_excel_file sampleFS6 "bad.xlsx"
        = (Option.none, ["Error reading " ++ "bad.xlsx" ++ ": " ++ "boom"])) ∧
    (sampleFS6 "ok.xlsx" = FileState.table sampleOPL ∧
      read_excel_file sampleFS6 "ok.xlsx"
        = (some sampleOPL, ["Successfully loaded: " ++ "ok.xlsx"])) :=
  ⟨⟨by decide, (read_excel_file_contract sampleFS6 "missing.xlsx").1 (by decide)⟩,
   ⟨by decide,
    (read_excel_file_contract sampleFS6 "bad.xlsx").2.1 "boom" (by decide)⟩,
   ⟨by decide,
    (read_excel_file_contract sampleFS6 "ok.xlsx").2.2 sampleOPL (by decide)⟩⟩

theorem warehouseStep_fst_isSome (os : OSKind) (fs : String → FileState)
    (files : List (String × String)) (t w : String) :
    ((warehouseStep os fs files t w).1).isSome
      = (match get_base_path os w with
         | Option.none => false
         | some bp =>
           match files.lookup w with
           | Option.none => false
           | some fn =>
             if fn = "" then false
             else ((read_excel_file fs (pathJoin os bp fn)).1).isSome) := by
  unfold warehouseStep
  cases get_base_path os w with
  | none => rfl
  | some bp =>
    cases files.lookup w with
    | none => rfl
    | some fn =>
      by_cases hfn : fn = ""
      · simp [hfn]
      · simp only [if_neg hfn]
        cases h : (read_excel_file fs (pathJoin os bp fn)).1 <;> simp [h]

theorem process_fold_fst (os : OSKind) (fs : String → FileState)
    (files : List (String × String)) (t : String) (ws : List String)
    (acc : List (String × DataFrame) × List String) :
    (ws.foldl
      (fun acc warehouse =>
        let step := warehouseStep os fs files t warehouse
        match step.1 with
        | some df => (acc.1 ++ [(warehouse, df)], acc.2 ++ step.2)
        | Option.none => (acc.1, acc.2 ++ step.2)) acc).1
      = acc.1 ++ ws.filterMap
          (fun w => ((warehouseStep os fs files t w).1).map (fun df => (w, df))) := by
  induction ws generalizing acc with
  | nil => simp
  | cons w ws ih =>
    simp only [List.foldl_cons, List.filterMap_cons]
    cases h : (warehouseStep os fs files t w).1 with
    | none =>
      simp only [h, Option.map_none']
      rw [ih]
    | some df =>
      simp only [h, Option.map_some']
      rw [ih]
      simp [List.append_assoc]

theorem filterMap_keys (ws : List String) (f : String → Option DataFrame) :
    (ws.filterMap (fun w => (f w).map (fun df => (w, df)))).map Prod.fst
      = ws.filter (fun w => (f w).isSome) := by
  induction ws with
  | nil => rfl
  | cons w ws ih =>
    cases h : f w with
    | none => simp [List.filterMap_cons, List.filter_cons, h, ih]
    | some df => simp [List.filterMap_cons, List.filter_cons, h, ih]

theorem process_inventory_known (os : OSKind) (fs : String → FileState)
    (t : String) (files : List (String × String))
    (hl : inventory_files.lookup t = some files) :
    (process_inventory os fs t).1
      = warehouses.filterMap
          (fun w => ((warehouseStep os fs files t w).1).map (fun df => (w, df))) := by
  unfold process_inventory
  simp only [hl]
  rw [process_fold_fst]
  rfl

/-- C7: process_inventory returns exactly the warehouses, in the iteration
order OPL, E, MOBU, whose resolved file loads successfully (for the three
known inventory types the base path always resolves and the file name is
always defined), and an unknown inventory type yields the empty mapping with
the logged warning; the embedding is a total function, so a missing or
corrupt file in one warehouse never fails the run. -/
theorem process_inventory_contract (os : OSKind) (fs : String → FileState)
    (t : String) :
    (t ∉ (["LATA", "PREFORMA", "PT"] : List String) →
      process_inventory os fs t = ([], ["Unknown inventory type: " ++ t])) ∧
    (t ∈ (["LATA", "PREFORMA", "PT"] : List String) →
      (process_inventory os fs t).1.map Prod.fst
        = warehouses.filter (fun w =>
            (match inventory_file_path os t w with
             | some p => (read_excel_file fs p).1.isSome
             | Option.none => false))) := by
  constructor
  · intro hmem
    have h1 : (t == "LATA") = false :=
      beq_eq_false_iff_ne.mpr (fun he => hmem (by simp [he]))
    have h2 : (t == "PREFORMA") = false :=
      beq_eq_false_iff_ne.mpr (fun he => hmem (by simp [he]))
    have h3 : (t == "PT") = false :=
      beq_eq_false_iff_ne.mpr (fun he => hmem (by simp [he]))
    have hl : inventory_files.lookup t = Option.none := by
      simp [inventory_files, List.lookup, h1, h2, h3]
    unfold process_inventory
    simp [hl]
  · intro hmem
    simp only [List.mem_cons, List.not_mem_nil, or_false] at hmem
    rcases hmem with rfl | rfl | rfl
    · have hl : inventory_files.lookup "LATA"
          = some [("OPL", "INVENTARIO LATA VACIA 2025 BODOPL.xlsx"),
                  ("E", "INVENTARIO LATA VACIA 2025 BODE.xlsx"),
                  ("MOBU", "INVENTARIO LATA VACIA 2025 MOBU.xlsx")] := rfl
      rw [process_inventory_known os fs _ _ hl, filterMap_keys]
      apply List.filter_congr
      intro w hw
      simp only [warehouses, List.mem_cons, List.not_mem_nil, or_false] at hw
      cases os
      all_goals (
        rcases hw with rfl | rfl | rfl
        all_goals (
          rw [warehouseStep_fst_isSome]
          rfl))
    · have hl : inventory_files.lookup "PREFORMA"
          = some [("OPL", "INVENTARIO DE PREFORMA 2025 BODOPL.xlsx"),
                  ("E", "INVENTARIO DE PREFORMA 2025 BODE.xlsx"),
                  ("MOBU", "INVENTARIO DE PREFORMA 2025 BODMOBU.xlsx")] := rfl
      rw [process_inventory_known os fs _ _ hl, filterMap_keys]
      apply List.filter_congr
      intro w hw
      simp only [warehouses, List.mem_cons, List.not_mem_nil, or_false] at hw
      cases os
      all_goals (
        rcases hw with rfl | rfl | rfl
        all_goals (
          rw [warehouseStep_fst_isSome]
          rfl))
    · have hl : inventory_files.lookup "PT"
          = some [("OPL", "INVENTARIO DE PT.XLSX"),
                  ("E", "INVENTARIO DE PT.XLSX"),
                  ("MOBU", "INVENTARIO DE PT.XLSX")] := rfl
      rw [process_inventory_known os fs _ _ hl, filterMap_keys]
      apply List.filter_congr
      intro w hw
      simp only [warehouses, List.mem_cons, List.not_mem_nil, or_false] at hw
      cases os
      all_goals (
        rcases hw with rfl | rfl | rfl
        all_goals (
          rw [warehouseStep_fst_isSome]
          rfl))

/-- Witness for C7: with warehouse E's LATA file missing and the other two
loading, the keys are exactly OPL and MOBU; an unknown type yields the empty
mapping with the warning. -/
theorem process_inventory_contract_witness :
    ("LATA" ∈ (["LATA", "PREFORMA", "PT"] : List String) ∧
      (process_inventory OSKind.posix sampleFS "LATA").1.map Prod.fst
        = ["OPL", "MOBU"]) ∧
    ("XYZ" ∉ (["LATA", "PREFORMA", "PT"] : List String) ∧
      process_inventory OSKind.posix sampleFS "XYZ"
        = ([], ["Unknown inventory type: " ++ "XYZ"])) :=
  ⟨⟨by decide,
    ((process_inventory_contract OSKind.posix sampleFS "LATA").2
      (by decide)).trans (by decide)⟩,
   ⟨by decide,
    (process_inventory_contract OSKind.posix sampleFS "XYZ").1 (by decide)⟩⟩
